import Mathlib

/-!
Verification of the sail-server taxonomy / listings subsystem.

Shallow embedding of the Python source under src/ (Django REST views):
  - src/taxonomy/views.py  : CategoriesTreeView, CategoryAttributesView
  - src/listings/views.py  : ListingCreateRawView, ListingUpdateRawView
Python values arriving in JSON payloads are modelled by the inductive
type PyVal; Python floats are modelled as rationals (the claims under
study do not depend on binary64 rounding), and the builtin numeric
parsers float(str) / int(str) are modelled by explicit Lean functions.
-/

namespace SailServer

/-- A loosely typed Python/JSON value as it arrives in `request.data`.
Python float values are modelled as rationals. -/
inductive PyVal where
  | pnone : PyVal
  | pbool : Bool → PyVal
  | pint : Int → PyVal
  | pfloat : Rat → PyVal
  | pstr : String → PyVal
  | plist : List PyVal → PyVal
  | pdict : List (String × PyVal) → PyVal
  deriving Repr

/-- Python truthiness (`if v:`) for the modelled values:
None, False, 0, 0.0, the empty string and the empty list are falsy. -/
def pyTruthy : PyVal → Bool
  | .pnone => false
  | .pbool b => b
  | .pint n => n != 0
  | .pfloat q => q != 0
  | .pstr s => s ≠ ""
  | .plist l => !l.isEmpty
  | .pdict d => !d.isEmpty

/-- The Python test `v is None` on modelled values. -/
def isNoneVal : PyVal → Bool
  | .pnone => true
  | _ => false

/-- The fixed truthy token set of `to_bool` in src/listings/views.py
(lines 201-206 and 312-317). -/
def truthyTokens : List String := ["1", "true", "yes", "on"]

/-- Python `str.strip()`: drop leading and trailing whitespace. -/
def pyStrip (s : String) : String :=
  String.mk (((s.toList.dropWhile Char.isWhitespace).reverse.dropWhile
    Char.isWhitespace).reverse)

/-- Python `str.lower()` (ASCII case folding suffices for the fixed token
set the code compares against). -/
def pyLower (s : String) : String :=
  String.mk (s.toList.map Char.toLower)

/-- `to_bool` from src/listings/views.py lines 201-206 (identical inner
definition at lines 312-317): a native boolean passes through; a string is
truthy iff its stripped, lowered form is in the fixed token set; every
other value maps to False. -/
def to_bool : PyVal → Bool
  | .pbool b => b
  | .pstr s => pyLower (pyStrip s) ∈ truthyTokens
  | _ => false

/-- Python `float(v)` on the modelled values, parameterised by the string
parser `parse` (the grammar of Python float literals): bools become 0/1,
ints embed, floats pass through, strings are parsed, None and lists raise
TypeError (modelled as `none`). -/
def pyFloat (parse : String → Option Rat) : PyVal → Option Rat
  | .pnone => none
  | .pbool b => some (if b then 1 else 0)
  | .pint n => some (n : Rat)
  | .pfloat q => some q
  | .pstr s => parse s
  | .plist _ => none
  | .pdict _ => none

/-- `to_float_or_none` from src/listings/views.py lines 208-214 (identical
inner definition at lines 319-325): None and the empty string yield None;
otherwise `float(v)` is attempted and any exception yields None. -/
def to_float_or_none (parse : String → Option Rat) (v : PyVal) : Option Rat :=
  match v with
  | .pnone => none
  | .pstr "" => none
  | _ => pyFloat parse v

/-- Boolean coercion viewed as a PyVal-to-PyVal map (the canonical stored
form of a boolean attribute/field is the native boolean `to_bool` returns). -/
def coerceBool (v : PyVal) : PyVal := .pbool (to_bool v)

/-- Numeric coercion viewed as a PyVal-to-PyVal map: the canonical form is
the parsed float, or None when `to_float_or_none` yields no value. -/
def coerceFloat (parse : String → Option Rat) (v : PyVal) : PyVal :=
  match to_float_or_none parse v with
  | some q => .pfloat q
  | none => .pnone

/-! ### Taxonomy data model (src/taxonomy/models.py via the fields the
views read: id, parent_id, name, name_ru, name_uz, slug, icon, icon image
URL, is_leaf, order). -/

/-- A Category row as read by the views. `iconUrl` is the already-resolved
`icon_image.url if icon_image else ""`. -/
structure Cat where
  id : Nat
  parent : Option Nat
  name : String
  name_ru : Option String
  name_uz : Option String
  slug : String
  icon : String
  iconUrl : String
  is_leaf : Bool
  order : Int
  deriving Repr, DecidableEq

/-- An Attribute row as read by CategoryAttributesView and serialised back:
declaring category, key, type tag, option set, required flag. -/
structure Attr where
  id : Nat
  category_id : Nat
  key : String
  typ : String
  options : List String
  required : Bool
  deriving Repr, DecidableEq

/-- The localized display name: `(c.name_uz if lang == "uz" else c.name_ru)
or c.name` — the Python `or` falls back on None and on the empty string. -/
def localName (lang : String) (c : Cat) : String :=
  match (if lang = "uz" then c.name_uz else c.name_ru) with
  | some s => if s = "" then c.name else s
  | none => c.name

/-- The serialized node payload emitted by CategoriesTreeView (children are
kept separately, as the adjacency `childrenData`). -/
structure NodeData where
  id : Nat
  name : String
  slug : String
  icon : String
  iconUrl : String
  is_leaf : Bool
  order : Int
  deriving Repr, DecidableEq

/-- Serialize one category for the given language. -/
def nodeOf (lang : String) (c : Cat) : NodeData :=
  { id := c.id, name := localName lang c, slug := c.slug, icon := c.icon,
    iconUrl := c.iconUrl, is_leaf := c.is_leaf, order := c.order }

/-! ### A stable ascending sort (model of Python list.sort / SQL ORDER BY) -/

/-- Insert an element in front of the first list element it compares
less-or-equal to. -/
def insertLe (le : α → α → Bool) (a : α) : List α → List α
  | [] => [a]
  | b :: bs => if le a b then a :: b :: bs else b :: insertLe le a bs

/-- Stable insertion sort, ascending with respect to `le`. -/
def sortLe (le : α → α → Bool) : List α → List α
  | [] => []
  | a :: as => insertLe le a (sortLe le as)

/-- Python string comparison: lexicographic on the code point sequence. -/
def strLE : List Char → List Char → Bool
  | [], _ => true
  | _ :: _, [] => false
  | a :: as, b :: bs =>
    if a.toNat < b.toNat then true
    else if b.toNat < a.toNat then false
    else strLE as bs

/-- Python `s <= t` on strings. -/
def pyStrLE (s t : String) : Bool := strLE s.toList t.toList

/-- Lexicographic comparison through a key function into Int times
String: the Python tuple key `(order, name)`. -/
def lexLE (k : α → Int × String) (a b : α) : Bool :=
  (k a).1 < (k b).1 || ((k a).1 == (k b).1 && pyStrLE (k a).2 (k b).2)

/-- Database ordering of the category queryset:
`order_by("order", "name")` — the default (non-localized) name column. -/
def dbLE : Cat → Cat → Bool := lexLE (fun c => (c.order, c.name))

/-- In-view sibling ordering: `key=lambda n: (n.get("order", 0),
n.get("name", ""))` over serialized nodes (localized name). -/
def sibLE : NodeData → NodeData → Bool := lexLE (fun n => (n.order, n.name))

/-- Attribute ordering `order_by("key")`. -/
def keyLE (a b : Attr) : Bool := pyStrLE a.key b.key

/-! ### CategoriesTreeView (src/taxonomy/views.py lines 22-80) -/

/-- The ids of the loaded categories (the key set of the `nodes` dict). -/
def catIds (cats : List Cat) : List Nat := cats.map (fun c => c.id)

/-- The category queryset in database order. -/
def treeCats (cats : List Cat) : List Cat := sortLe dbLE cats

/-- Where the assembly loop at lines 67-72 puts one category:
`if c.parent_id and c.parent_id in nodes` appends it to the parent's child
list, otherwise to `roots`. A parent id of 0 is falsy in Python. -/
def placedUnder (cats : List Cat) (c : Cat) : Option Nat :=
  match c.parent with
  | some p => if p ≠ 0 ∧ p ∈ catIds cats then some p else none
  | none => none

/-- The sorted sibling list under the node with id `p` in the assembled
tree. The source stores children inside mutable node dicts and sorts them
with the recursive `sort_children`; here the same tree is represented by
its adjacency: this function applied to each loaded id, plus `rootsData`.
`sort_children` reaches every node because (under the acyclicity the
claims assume) every loaded node hangs below some root. -/
def childrenData (lang : String) (cats : List Cat) (p : Nat) : List NodeData :=
  sortLe sibLE
    (((treeCats cats).filter (fun c => placedUnder cats c == some p)).map (nodeOf lang))

/-- The sorted root list of the assembled tree. -/
def rootsData (lang : String) (cats : List Cat) : List NodeData :=
  sortLe sibLE
    (((treeCats cats).filter (fun c => placedUnder cats c == none)).map (nodeOf lang))

/-! ### Python `int(str)` (used on the `parent_id` query parameter and on
payload ids). The literal grammar: optional surrounding whitespace, an
optional sign, then decimal digits possibly separated by single
underscores. -/

mutual

/-- A digit-led run of digits and single separating underscores. -/
def intBody : List Char → Bool
  | [] => false
  | c :: rest => c.isDigit && intTail rest

/-- Continuation of a digit run: an underscore must be followed by a
digit-led run again. -/
def intTail : List Char → Bool
  | [] => true
  | c :: rest => if c = '_' then intBody rest else c.isDigit && intTail rest

end

/-- Decimal value of a digit list (underscores removed beforehand). -/
def digitsVal (cs : List Char) : Nat :=
  cs.foldl (fun acc c => 10 * acc + (c.toNat - 48)) 0

/-- Python `int(s)` on a string. -/
def pyIntParse (s : String) : Option Int :=
  let cs := (pyStrip s).toList
  let sign : Int := match cs with
    | '-' :: _ => -1
    | _ => 1
  let body := match cs with
    | '+' :: r => r
    | '-' :: r => r
    | r => r
  if intBody body then some (sign * (digitsVal (body.filter (fun c => c ≠ '_')) : Int))
  else none

/-- Python `int(v)` on a payload value: ints pass, bools become 0/1,
floats truncate toward zero, strings parse, None and lists raise
(modelled as `none`). -/
def pyInt : PyVal → Option Int
  | .pint n => some n
  | .pbool b => some (if b then 1 else 0)
  | .pfloat q => some (if q < 0 then Int.ceil q else Int.floor q)
  | .pstr s => pyIntParse s
  | _ => none

/-- The response of the categories endpoint: a flat child list
(single-level mode) or the assembled tree, represented by its sorted
root list together with the sorted-children adjacency. -/
inductive CatResponse where
  | flat : List NodeData → CatResponse
  | tree : List NodeData → (Nat → List NodeData) → CatResponse

/-- CategoriesTreeView.get (src/taxonomy/views.py lines 26-80).
`parent_id` is the raw query parameter (absent or a string). A present,
truthy parameter that parses as an int selects single-level mode; a
ValueError from `int(...)` is swallowed by `except ValueError: pass` and
the code falls through to the full tree build. -/
def categoriesTreeView (lang : String) (cats : List Cat) (parentIdParam : Option String) :
    CatResponse :=
  let fullTree : CatResponse :=
    .tree (rootsData lang cats) (fun p => childrenData lang cats p)
  match parentIdParam with
  | none => fullTree
  | some s =>
    if s ≠ "" then
      match pyIntParse s with
      | some pid =>
        .flat (((treeCats cats).filter
          (fun c => match c.parent with
            | some p => (p : Int) == pid
            | none => false)).map (nodeOf lang))
      | none => fullTree
    else fullTree

/-! ### Ancestor walk (CategoryAttributesView, lines 94-98) -/

/-- Parent id of the category with id `i` in the loaded table. -/
def parentInEnv (cats : List Cat) (i : Nat) : Option Nat :=
  (cats.find? (fun c => c.id == i)).bind (fun c => c.parent)

/-- n-fold parent step on an optional current id; `none` means the walk
reached a root (or a dangling id). -/
def iterParent (cats : List Cat) : Nat → Option Nat → Option Nat
  | 0, oi => oi
  | n + 1, oi => iterParent cats n (oi.bind (parentInEnv cats))

/-- The invariant the spec states for category parent links: no node is
its own (proper) ancestor. -/
def Acyclic (cats : List Cat) : Prop :=
  ∀ c ∈ cats, ∀ n : Nat, iterParent cats (n + 1) (some c.id) ≠ some c.id

/-- Referential integrity of parent links: every parent id names a loaded
category (Django enforces the foreign key). -/
def ClosedParents (cats : List Cat) : Prop :=
  ∀ c ∈ cats, ∀ p, c.parent = some p → p ∈ catIds cats

/-- The while loop `while cur is not None: ids.append(cur.id);
cur = cur.parent`, run with explicit fuel; `none` models a walk that does
not finish within `fuel` steps (or hits a dangling parent id). -/
def ancestorChain (cats : List Cat) : Nat → Option Cat → Option (List Nat)
  | _, none => some []
  | 0, some _ => none
  | fuel + 1, some c =>
    let step : Option (Option Cat) :=
      match c.parent with
      | none => some none
      | some p =>
        match cats.find? (fun d => d.id == p) with
        | some d => some (some d)
        | none => none
    match step with
    | none => none
    | some cur => (ancestorChain cats fuel cur).map (fun l => c.id :: l)

/-- CategoryAttributesView.get (src/taxonomy/views.py lines 87-100):
look up the category (a missing id answers 200 with an empty list), walk
the ancestor chain, and return every Attribute row owned by a chain
member, ordered by key. The result is `none` only if the walk fails
(impossible for forest-shaped data). -/
def categoryAttributesView (cats : List Cat) (attrs : List Attr) (pk : Nat) :
    Option (Nat × List Attr) :=
  match cats.find? (fun c => c.id == pk) with
  | none => some (200, [])
  | some cat =>
    match ancestorChain cats cats.length (some cat) with
    | none => none
    | some ids =>
      some (200, sortLe keyLE (attrs.filter (fun a => ids.contains a.category_id)))

/-! ### Listings data model (src/listings/views.py: ListingCreateRawView
and ListingUpdateRawView). The Listing row carries exactly the fields the
two raw views read and write. -/

/-- A Listing row. Numeric amounts are rationals (model of Python
floats); free-form payload fields keep their PyVal form. `attrs` is the
coerced attribute set persisted for the listing. -/
structure Listing where
  id : Nat
  user : Nat
  title : PyVal
  description : PyVal
  price_amount : Rat
  price_currency : PyVal
  is_price_negotiable : Bool
  condition : String
  deal_type : String
  seller_type : String
  category_id : Int
  location_id : Int
  lat : Option Rat
  lon : Option Rat
  contact_phone_masked : String
  contact_phone : PyVal
  contact_name : PyVal
  contact_email : PyVal
  attrs : List (String × PyVal)
  deriving Repr

/-- The environment of the listing views: reference tables, the enum
choice sets and defaults (from listings/models.py, which is not under
src/), the user's phone (profile or username), the float-literal parser,
and the id/user assigned to a created row. -/
structure ListingEnv where
  cats : List Cat
  locs : List Int
  attrsTable : List Attr
  condChoices : List String
  dealChoices : List String
  sellerChoices : List String
  condDefault : String
  dealDefault : String
  sellerDefault : String
  phone : String
  parse : String → Option Rat
  newId : Nat
  userId : Nat

/-- A write-endpoint response: a field-addressed error with HTTP status,
or a success payload. -/
inductive WriteResp where
  | err : Nat → String → String → WriteResp
  | created : Listing → WriteResp
  | updated : Listing → WriteResp
  deriving Repr

/-- HTTP status of a response. -/
def statusOf : WriteResp → Nat
  | .err s _ _ => s
  | .created _ => 201
  | .updated _ => 200

/-- Field and message of an error response, if it is one. -/
def errOf : WriteResp → Option (String × String)
  | .err _ f m => some (f, m)
  | _ => none

/-- Python `data.get(k, default)` over the payload dict. -/
def dictGetD (data : List (String × PyVal)) (k : String) (d : PyVal) : PyVal :=
  (data.lookup k).getD d

/-- The membership test of `v not in dict(Model.Xyz.choices)`: true with
the matched string exactly when the value is a string in the choice set. -/
def enumCheck (v : PyVal) (choices : List String) : Option String :=
  match v with
  | .pstr s => if s ∈ choices then some s else none
  | _ => none

/-- A concrete float-literal parser instance used by witnesses: optional
sign, decimal digits with an optional fractional part. -/
def decimalParse (s : String) : Option Rat :=
  let cs := (pyStrip s).toList
  let sign : Rat :=
    match cs with
    | '-' :: _ => -1
    | _ => 1
  let body : List Char :=
    match cs with
    | '+' :: r => r
    | '-' :: r => r
    | r => r
  let ip := body.takeWhile (fun c => c ≠ '.')
  let rest := body.dropWhile (fun c => c ≠ '.')
  let frac : Option (List Char) :=
    match rest with
    | [] => some []
    | '.' :: f => some f
    | _ => none
  match frac with
  | none => none
  | some f =>
    if !(ip ++ f).isEmpty && (ip ++ f).all Char.isDigit then
      some (sign * ((digitsVal ip : Rat) + (digitsVal f : Rat) / ((10 : Rat) ^ f.length)))
    else none

/-! ### Spec-modelled attribute persistence.
`ListingCreateSerializer._save_attributes` lives in
src/listings/serializers.py, which is not part of the provided source;
only its call sites in src/listings/views.py are. The resolver and
coercer below are modelled from the spec (sections 4.3 and 4.4). -/

/-- Modelled from the spec: the AttributeSchemaResolver used by
`_save_attributes` (src/listings/serializers.py, not under src/).
Per section 4.3: collect the category id plus every ancestor id, fetch the
attributes declared at those nodes, and merge by key with
descendant-declared attributes overriding ancestor-declared attributes of
the same key, sorted by key. `none` models a non-terminating walk. -/
def resolveSchemaSpec (cats : List Cat) (attrsTable : List Attr) (cid : Int) :
    Option (List Attr) :=
  match cats.find? (fun c => (c.id : Int) == cid) with
  | none => none
  | some c =>
    (ancestorChain cats cats.length (some c)).map (fun chain =>
      let merged := chain.reverse.foldl
        (fun acc i =>
          (attrsTable.filter (fun a => a.category_id == i)).foldl
            (fun ac a => ac.filter (fun b => b.key ≠ a.key) ++ [a]) acc)
        []
      sortLe keyLE merged)

/-- Modelled from the spec (section 4.4): extraction of one submitted
attribute item, a dict carrying `key` and `value`. -/
def attrItemKV : PyVal → Except (String × String) (String × PyVal)
  | .pdict d =>
    match d.lookup "key" with
    | some (.pstr k) => .ok (k, (d.lookup "value").getD .pnone)
    | _ => .error ("attributes", "Invalid attribute item.")
  | _ => .error ("attributes", "Invalid attribute item.")

/-- Modelled from the spec (section 4.4): keys submitted more than once are
deduplicated, last submission wins, before validation. -/
def dedupLastWins (ps : List (String × PyVal)) : List (String × PyVal) :=
  ps.foldl (fun ac p => ac.filter (fun q => q.1 ≠ p.1) ++ [p]) []

/-- Modelled from the spec (section 4.4): coercion of one value against its
declared attribute. `ok none` is the spec's "no value" (field omitted). -/
def coerceAttrValue (parse : String → Option Rat) (a : Attr) (v : PyVal) :
    Except (String × String) (Option PyVal) :=
  match a.typ with
  | "boolean" => .ok (some (.pbool (to_bool v)))
  | "number" =>
    match v with
    | .pnone => .ok none
    | .pstr "" => .ok none
    | _ =>
      match pyFloat parse v with
      | some q => .ok (some (.pfloat q))
      | none => .error (a.key, "Must be a number.")
  | "text" =>
    match v with
    | .pstr str => .ok (some (.pstr str))
    | _ => .error (a.key, "Must be a string.")
  | "choice" =>
    match v with
    | .pstr str =>
      if str ∈ a.options then .ok (some (.pstr str))
      else .error (a.key, "Invalid choice.")
    | _ => .error (a.key, "Invalid choice.")
  | _ => .error (a.key, "Unknown attribute type.")

/-- Modelled from the spec: `_save_attributes`
(src/listings/serializers.py, not under src/). Per section 4.4: reject keys
absent from the resolved schema, coerce per declared type, then check
every required attribute received a value; on success the canonical pairs
replace the listing's attribute set. -/
def saveAttributesSpec (parse : String → Option Rat) (schema : List Attr)
    (items : List PyVal) : Except (String × String) (List (String × PyVal)) := do
  let pairs0 ← items.mapM attrItemKV
  let pairs := dedupLastWins pairs0
  let coerced ← pairs.foldlM (fun acc kv =>
    match schema.find? (fun a => a.key == kv.1) with
    | none => .error (kv.1, "Unknown attribute.")
    | some a => do
      let r ← coerceAttrValue parse a kv.2
      match r with
      | some cv => pure (acc ++ [(kv.1, cv)])
      | none => pure acc) []
  match schema.find? (fun a => a.required && (coerced.lookup a.key).isNone) with
  | some a => .error (a.key, "This field is required.")
  | none => pure coerced

/-! ### ListingCreateRawView.post (src/listings/views.py lines 158-267) -/

/-- The validation-and-construction phase of ListingCreateRawView.post:
required-field truthiness (lines 164-171), integer coercion of the ids
(173-181), existence checks (183-186), optional-field extraction with
defaults (188-198), numeric/boolean coercion (216-223), and enum
membership checks (225-230), producing the row `Listing.objects.create`
persists with the phone mask applied (232-256). Error messages of the
enum checks are abbreviated. -/
def createListingRecord (env : ListingEnv) (data : List (String × PyVal)) :
    Except (String × String) Listing :=
  if !(pyTruthy (dictGetD data "title" .pnone)
      && pyTruthy (dictGetD data "category" .pnone)
      && pyTruthy (dictGetD data "location" .pnone)) then
    .error ("detail", "'title', 'category', and 'location' are required.")
  else
    match pyInt (dictGetD data "category" .pnone) with
    | none => .error ("category", "Must be an integer id.")
    | some cid =>
      match pyInt (dictGetD data "location" .pnone) with
      | none => .error ("location", "Must be an integer id.")
      | some lid =>
        if !(env.cats.any (fun c => (c.id : Int) == cid)) then
          .error ("category", "Not found.")
        else if !(env.locs.contains lid) then
          .error ("location", "Not found.")
        else
          match pyFloat env.parse (dictGetD data "price_amount" (.pint 0)) with
          | none => .error ("price_amount", "Must be a number.")
          | some price =>
            match enumCheck (dictGetD data "condition" (.pstr env.condDefault))
                env.condChoices with
            | none => .error ("condition", "Invalid.")
            | some condS =>
              match enumCheck (dictGetD data "deal_type" (.pstr env.dealDefault))
                  env.dealChoices with
              | none => .error ("deal_type", "Invalid.")
              | some dealS =>
                match enumCheck (dictGetD data "seller_type" (.pstr env.sellerDefault))
                    env.sellerChoices with
                | none => .error ("seller_type", "Invalid.")
                | some sellerS =>
                  .ok {
                    id := env.newId, user := env.userId,
                    title := dictGetD data "title" .pnone,
                    description := dictGetD data "description" (.pstr ""),
                    price_amount := price,
                    price_currency := dictGetD data "price_currency" (.pstr "UZS"),
                    is_price_negotiable :=
                      to_bool (dictGetD data "is_price_negotiable" (.pbool false)),
                    condition := condS, deal_type := dealS, seller_type := sellerS,
                    category_id := cid, location_id := lid,
                    lat := to_float_or_none env.parse (dictGetD data "lat" .pnone),
                    lon := to_float_or_none env.parse (dictGetD data "lon" .pnone),
                    contact_phone_masked := env.phone,
                    contact_phone := .pnone, contact_name := .pnone,
                    contact_email := .pnone, attrs := [] }

/-- ListingCreateRawView.post: on a validation failure nothing is
persisted; otherwise the row is created, and when a non-empty attribute
list was submitted, `_save_attributes` (spec-modelled) runs AFTER the row
is persisted — its failure leaves the created row in the table (the view
opens no transaction). `none` models only divergence of the ancestor walk
inside schema resolution. -/
def listingCreateRaw (env : ListingEnv) (st : List Listing)
    (data : List (String × PyVal)) : Option (WriteResp × List Listing) :=
  match createListingRecord env data with
  | .error e => some (.err 400 e.1 e.2, st)
  | .ok listing =>
    match dictGetD data "attributes" (.plist []) with
    | .plist items =>
      if items.isEmpty then some (.created listing, st ++ [listing])
      else
        match resolveSchemaSpec env.cats env.attrsTable listing.category_id with
        | none => none
        | some schema =>
          match saveAttributesSpec env.parse schema items with
          | .error e => some (.err 400 e.1 e.2, st ++ [listing])
          | .ok avs =>
            some (.created { listing with attrs := avs },
              st ++ [{ listing with attrs := avs }])
    | _ => some (.created listing, st ++ [listing])

/-! ### ListingUpdateRawView.patch (src/listings/views.py lines 270-381) -/

/-- Category validation of the patch (lines 294-300): absent or null means
no change; a present value must be an integer id of an existing
category. -/
def stageCategory (env : ListingEnv) (data : List (String × PyVal)) :
    Except (String × String) (Option Int) :=
  match dictGetD data "category" .pnone with
  | .pnone => .ok none
  | v =>
    match pyInt v with
    | none => .error ("category", "Must be an integer id.")
    | some cid =>
      if env.cats.any (fun c => (c.id : Int) == cid) then .ok (some cid)
      else .error ("category", "Not found.")

/-- Location validation of the patch (lines 302-309). -/
def stageLocation (env : ListingEnv) (data : List (String × PyVal)) :
    Except (String × String) (Option Int) :=
  match dictGetD data "location" .pnone with
  | .pnone => .ok none
  | v =>
    match pyInt v with
    | none => .error ("location", "Must be an integer id.")
    | some lid =>
      if env.locs.contains lid then .ok (some lid)
      else .error ("location", "Not found.")

/-- Price validation of the patch (lines 332-336): only when the key is
present. -/
def stagePrice (env : ListingEnv) (data : List (String × PyVal)) :
    Except (String × String) (Option Rat) :=
  match data.lookup "price_amount" with
  | none => .ok none
  | some v =>
    match pyFloat env.parse v with
    | none => .error ("price_amount", "Must be a number.")
    | some q => .ok (some q)

/-- Enum validation of the patch (lines 341-355): only when the key is
present; message abbreviated. -/
def stageEnum (data : List (String × PyVal)) (key : String)
    (choices : List String) : Except (String × String) (Option String) :=
  match data.lookup key with
  | none => .ok none
  | some v =>
    match enumCheck v choices with
    | none => .error (key, "Invalid.")
    | some str => .ok (some str)

/-- The field-update phase of ListingUpdateRawView.patch (lines 282-369):
validations in source order, then the single `listing.save()` applying
exactly the fields whose keys are present in the payload. -/
def patchCore (env : ListingEnv) (data : List (String × PyVal)) (l : Listing) :
    Except (String × String) Listing :=
  if !(isNoneVal (dictGetD data "title" .pnone))
      && !(pyTruthy (dictGetD data "title" .pnone)) then
    .error ("title", "Title cannot be empty.")
  else
    match stageCategory env data with
    | .error e => .error e
    | .ok catUpd =>
      match stageLocation env data with
      | .error e => .error e
      | .ok locUpd =>
        match stagePrice env data with
        | .error e => .error e
        | .ok priceUpd =>
          match stageEnum data "condition" env.condChoices with
          | .error e => .error e
          | .ok condUpd =>
            match stageEnum data "deal_type" env.dealChoices with
            | .error e => .error e
            | .ok dealUpd =>
              match stageEnum data "seller_type" env.sellerChoices with
              | .error e => .error e
              | .ok sellerUpd =>
                .ok { l with
                  title :=
                    if isNoneVal (dictGetD data "title" .pnone) then l.title
                    else dictGetD data "title" .pnone,
                  description := (data.lookup "description").getD l.description,
                  price_amount := priceUpd.getD l.price_amount,
                  price_currency := (data.lookup "price_currency").getD l.price_currency,
                  is_price_negotiable :=
                    match data.lookup "is_price_negotiable" with
                    | some v => to_bool v
                    | none => l.is_price_negotiable,
                  condition := condUpd.getD l.condition,
                  deal_type := dealUpd.getD l.deal_type,
                  seller_type := sellerUpd.getD l.seller_type,
                  category_id := catUpd.getD l.category_id,
                  location_id := locUpd.getD l.location_id,
                  lat :=
                    match data.lookup "lat" with
                    | some v => to_float_or_none env.parse v
                    | none => l.lat,
                  lon :=
                    match data.lookup "lon" with
                    | some v => to_float_or_none env.parse v
                    | none => l.lon,
                  contact_phone :=
                    if isNoneVal (dictGetD data "contact_phone" .pnone) then
                      l.contact_phone
                    else dictGetD data "contact_phone" .pnone,
                  contact_name :=
                    if isNoneVal (dictGetD data "contact_name" .pnone) then
                      l.contact_name
                    else dictGetD data "contact_name" .pnone,
                  contact_email :=
                    if isNoneVal (dictGetD data "contact_email" .pnone) then
                      l.contact_email
                    else dictGetD data "contact_email" .pnone }

/-- `Listing.objects.get(pk=pk, user=request.user)`. -/
def findListing (st : List Listing) (pk uid : Nat) : Option Listing :=
  st.find? (fun l => l.id == pk && l.user == uid)

/-- ListingUpdateRawView.patch: 404 when the listing is absent or not
owned; field updates are saved as one row write; afterwards, if the
payload carries an attribute LIST, `_save_attributes` (spec-modelled)
replaces the attribute set — its failure happens after the field save and
leaves the field updates applied. -/
def listingUpdateRaw (env : ListingEnv) (st : List Listing) (pk uid : Nat)
    (data : List (String × PyVal)) : Option (WriteResp × List Listing) :=
  match findListing st pk uid with
  | none => some (.err 404 "detail" "Not found", st)
  | some l =>
    match patchCore env data l with
    | .error e => some (.err 400 e.1 e.2, st)
    | .ok l2 =>
      let st2 := st.map (fun x => if x.id == pk && x.user == uid then l2 else x)
      match dictGetD data "attributes" .pnone with
      | .plist items =>
        match resolveSchemaSpec env.cats env.attrsTable l2.category_id with
        | none => none
        | some schema =>
          match saveAttributesSpec env.parse schema items with
          | .error e => some (.err 400 e.1 e.2, st2)
          | .ok avs =>
            let l3 := { l2 with attrs := avs }
            some (.updated l3,
              st.map (fun x => if x.id == pk && x.user == uid then l3 else x))
      | _ => some (.updated l2, st2)

/- ===================== theorems ===================== -/

/-- C10: a present `parent_id` query parameter that does not parse as an
integer is neither an error nor an empty child list: the view falls
through to the full tree build, exactly as if no `parent_id` had been
supplied. -/
theorem categories_tree_bad_parent_id (lang : String) (cats : List Cat) (s : String)
    (h : pyIntParse s = none) :
    categoriesTreeView lang cats (some s) = categoriesTreeView lang cats none := by
  unfold categoriesTreeView
  by_cases hs : s = "" <;> simp [hs, h]

/-- Witness for C10 at the unparseable parameter "abc". -/
theorem categories_tree_bad_parent_id_witness :
    pyIntParse "abc" = none ∧
      categoriesTreeView "ru" [] (some "abc") = categoriesTreeView "ru" [] none :=
  ⟨by decide, categories_tree_bad_parent_id "ru" [] "abc" (by decide)⟩

/-- C7: boolean coercion is total (it is a Lean function into Bool, so it
never raises): a native boolean passes through unchanged; a string is true
exactly when its trimmed, case-folded form is one of "1", "true", "yes",
"on" (and false otherwise); every value of any other type yields false. -/
theorem to_bool_total_spec :
    (∀ b : Bool, to_bool (.pbool b) = b) ∧
    (∀ s : String,
      to_bool (.pstr s) = true ↔ pyLower (pyStrip s) ∈ truthyTokens) ∧
    (to_bool .pnone = false ∧
     (∀ n : Int, to_bool (.pint n) = false) ∧
     (∀ q : Rat, to_bool (.pfloat q) = false) ∧
     (∀ l : List PyVal, to_bool (.plist l) = false) ∧
     (∀ d : List (String × PyVal), to_bool (.pdict d) = false)) := by
  refine ⟨fun b => rfl, fun s => ?_, rfl, fun n => rfl, fun q => rfl, fun l => rfl,
    fun d => rfl⟩
  simp [to_bool]

/-- C8: the coercion primitives are deterministic (they are functions) and
idempotent: re-coercing the canonical output of boolean coercion or of
numeric coercion yields the same value, for every input value and every
model of the float-literal parser. -/
theorem coerce_idempotent (parse : String → Option Rat) (v : PyVal) :
    coerceBool (coerceBool v) = coerceBool v ∧
    coerceFloat parse (coerceFloat parse v) = coerceFloat parse v := by
  constructor
  · rfl
  · unfold coerceFloat
    cases v with
    | pnone => rfl
    | pbool b => rfl
    | pint n => rfl
    | pfloat q => rfl
    | plist l => rfl
    | pdict d => rfl
    | pstr s =>
      by_cases h : s = ""
      · subst h; rfl
      · simp only [to_float_or_none]
        cases hp : pyFloat parse (.pstr s) with
        | none =>
          simp [h, hp, to_float_or_none]
        | some q =>
          simp [h, hp, to_float_or_none, pyFloat]

theorem insertLe_perm (le : α → α → Bool) (a : α) (l : List α) :
    (insertLe le a l).Perm (a :: l) := by
  induction l with
  | nil => exact List.Perm.refl _
  | cons b bs ih =>
    unfold insertLe
    by_cases h : le a b = true
    · rw [if_pos h]
    · rw [if_neg h]
      exact (ih.cons b).trans (List.Perm.swap a b bs)

theorem sortLe_perm (le : α → α → Bool) (l : List α) : (sortLe le l).Perm l := by
  induction l with
  | nil => exact List.Perm.refl _
  | cons a as ih =>
    exact (insertLe_perm le a (sortLe le as)).trans (ih.cons a)

theorem mem_sortLe (le : α → α → Bool) (l : List α) (x : α) :
    x ∈ sortLe le l ↔ x ∈ l :=
  (sortLe_perm le l).mem_iff

theorem sorted_insertLe (le : α → α → Bool)
    (htrans : ∀ x y z, le x y = true → le y z = true → le x z = true)
    (htot : ∀ x y, le x y = true ∨ le y x = true)
    (a : α) (l : List α) (h : l.Pairwise (fun x y => le x y = true)) :
    (insertLe le a l).Pairwise (fun x y => le x y = true) := by
  induction l with
  | nil => simp [insertLe]
  | cons b bs ih =>
    rcases List.pairwise_cons.mp h with ⟨hb, hbs⟩
    unfold insertLe
    by_cases hab : le a b = true
    · rw [if_pos hab]
      refine List.pairwise_cons.mpr ⟨?_, h⟩
      intro x hx
      rcases List.mem_cons.mp hx with hx | hx
      · exact hx ▸ hab
      · exact htrans a b x hab (hb x hx)
    · rw [if_neg hab]
      refine List.pairwise_cons.mpr ⟨?_, ih hbs⟩
      intro x hx
      rcases List.mem_cons.mp (((insertLe_perm le a bs).mem_iff).mp hx) with hx | hx
      · rw [hx]
        rcases htot a b with hh | hh
        · exact absurd hh hab
        · exact hh
      · exact hb x hx

theorem sorted_sortLe (le : α → α → Bool)
    (htrans : ∀ x y z, le x y = true → le y z = true → le x z = true)
    (htot : ∀ x y, le x y = true ∨ le y x = true)
    (l : List α) : (sortLe le l).Pairwise (fun x y => le x y = true) := by
  induction l with
  | nil => simp [sortLe]
  | cons a as ih => exact sorted_insertLe le htrans htot a (sortLe le as) ih

theorem strLE_total : ∀ xs ys : List Char, strLE xs ys = true ∨ strLE ys xs = true := by
  intro xs
  induction xs with
  | nil =>
    intro ys
    left
    cases ys <;> rfl
  | cons a as ih =>
    intro ys
    cases ys with
    | nil => right; rfl
    | cons b bs =>
      rcases Nat.lt_trichotomy a.toNat b.toNat with h | h | h
      · left; unfold strLE; rw [if_pos h]
      · have hnl : ¬ a.toNat < b.toNat := by omega
        have hnr : ¬ b.toNat < a.toNat := by omega
        rcases ih bs with hh | hh
        · left; unfold strLE; rw [if_neg hnl, if_neg hnr]; exact hh
        · right; unfold strLE; rw [if_neg hnr, if_neg hnl]; exact hh
      · right; unfold strLE; rw [if_pos h]

theorem strLE_trans : ∀ xs ys zs : List Char, strLE xs ys = true →
    strLE ys zs = true → strLE xs zs = true := by
  intro xs
  induction xs with
  | nil =>
    intro ys zs h1 h2
    cases zs <;> rfl
  | cons a as ih =>
    intro ys zs h1 h2
    cases ys with
    | nil => exact absurd h1 (by simp [strLE])
    | cons b bs =>
      cases zs with
      | nil => exact absurd h2 (by simp [strLE])
      | cons c cs =>
        unfold strLE at h1 h2 ⊢
        have h1p : a.toNat < b.toNat ∨ (a.toNat = b.toNat ∧ strLE as bs = true) := by
          rcases Nat.lt_trichotomy a.toNat b.toNat with h | h | h
          · exact Or.inl h
          · right
            refine ⟨h, ?_⟩
            rw [if_neg (by omega), if_neg (by omega)] at h1
            exact h1
          · rw [if_neg (by omega), if_pos h] at h1
            exact absurd h1 (by simp)
        have h2p : b.toNat < c.toNat ∨ (b.toNat = c.toNat ∧ strLE bs cs = true) := by
          rcases Nat.lt_trichotomy b.toNat c.toNat with h | h | h
          · exact Or.inl h
          · right
            refine ⟨h, ?_⟩
            rw [if_neg (by omega), if_neg (by omega)] at h2
            exact h2
          · rw [if_neg (by omega), if_pos h] at h2
            exact absurd h2 (by simp)
        rcases h1p with h1p | ⟨he1, hs1⟩ <;> rcases h2p with h2p | ⟨he2, hs2⟩
        · rw [if_pos (by omega)]
        · rw [if_pos (by omega)]
        · rw [if_pos (by omega)]
        · rw [if_neg (by omega), if_neg (by omega)]
          exact ih bs cs hs1 hs2

theorem lexLE_total (k : α → Int × String) (a b : α) :
    lexLE k a b = true ∨ lexLE k b a = true := by
  unfold lexLE
  simp only [Bool.or_eq_true, Bool.and_eq_true, beq_iff_eq, decide_eq_true_eq]
  rcases lt_trichotomy (k a).1 (k b).1 with h | h | h
  · exact Or.inl (Or.inl h)
  · rcases strLE_total (k a).2.toList (k b).2.toList with h2 | h2
    · exact Or.inl (Or.inr ⟨h, h2⟩)
    · exact Or.inr (Or.inr ⟨h.symm, h2⟩)
  · exact Or.inr (Or.inl h)

theorem lexLE_trans (k : α → Int × String) (a b c : α)
    (h1 : lexLE k a b = true) (h2 : lexLE k b c = true) : lexLE k a c = true := by
  unfold lexLE at h1 h2 ⊢
  simp only [Bool.or_eq_true, Bool.and_eq_true, beq_iff_eq, decide_eq_true_eq] at h1 h2 ⊢
  rcases h1 with h1 | ⟨h1e, h1s⟩
  · rcases h2 with h2 | ⟨h2e, _⟩
    · exact Or.inl (h1.trans h2)
    · exact Or.inl (h2e ▸ h1)
  · rcases h2 with h2 | ⟨h2e, h2s⟩
    · exact Or.inl (h1e ▸ h2)
    · exact Or.inr ⟨h1e.trans h2e, strLE_trans _ _ _ h1s h2s⟩

theorem iterParent_none (cats : List Cat) (n : Nat) : iterParent cats n none = none := by
  induction n with
  | zero => rfl
  | succ m ih =>
    show iterParent cats m (Option.bind none (parentInEnv cats)) = none
    exact ih

theorem iterParent_add (cats : List Cat) (m n : Nat) (oi : Option Nat) :
    iterParent cats (m + n) oi = iterParent cats m (iterParent cats n oi) := by
  induction n generalizing oi with
  | zero => rfl
  | succ k ih =>
    show iterParent cats (m + k) (oi.bind (parentInEnv cats)) = _
    exact ih (oi.bind (parentInEnv cats))

/-- Membership in a sorted, serialized, filtered category list reduces to
the filter predicate, for categories with distinct ids. -/
theorem mem_sorted_filter_map (lang : String) (cats : List Cat)
    (hnd : (catIds cats).Nodup) (f : Cat → Bool) (c : Cat) (hc : c ∈ cats) :
    (nodeOf lang c ∈ sortLe sibLE (((treeCats cats).filter f).map (nodeOf lang))
      ↔ f c = true) := by
  have hnd2 : (cats.map (fun d => d.id)).Nodup := hnd
  rw [mem_sortLe, List.mem_map]
  constructor
  · rintro ⟨c2, hc2, heq⟩
    rcases List.mem_filter.mp hc2 with ⟨hc2m, hc2f⟩
    have hc2cats : c2 ∈ cats := (sortLe_perm dbLE cats).mem_iff.mp hc2m
    have hid : c2.id = c.id := congrArg NodeData.id heq
    have hcc : c2 = c := List.inj_on_of_nodup_map hnd2 hc2cats hc hid
    exact hcc ▸ hc2f
  · intro hf
    exact ⟨c, List.mem_filter.mpr ⟨(sortLe_perm dbLE cats).mem_iff.mpr hc, hf⟩, rfl⟩

/-- C6: for a category set with distinct positive ids and acyclic parent
links, the assembled tree places every loaded node under exactly one
parent — under `p` exactly when its parent id is `p` and `p` is loaded,
and as a root exactly when it has no loaded parent — and every sibling
list at every depth is sorted ascending by `order`, ties broken by the
localized display name. -/
theorem tree_assembly_correct (lang : String) (cats : List Cat)
    (hnd : (catIds cats).Nodup)
    (hpos : ∀ c ∈ cats, c.id ≠ 0)
    (hacyc : Acyclic cats) :
    (∀ c ∈ cats,
      (∀ p, nodeOf lang c ∈ childrenData lang cats p ↔
        (c.parent = some p ∧ p ∈ catIds cats)) ∧
      (nodeOf lang c ∈ rootsData lang cats ↔
        (∀ p, c.parent = some p → p ∉ catIds cats))) ∧
    (∀ p, (childrenData lang cats p).Pairwise (fun a b => sibLE a b = true)) ∧
    (rootsData lang cats).Pairwise (fun a b => sibLE a b = true) := by
  have hptot : ∀ x y, sibLE x y = true ∨ sibLE y x = true :=
    fun x y => lexLE_total _ x y
  have hptrans : ∀ x y z, sibLE x y = true → sibLE y z = true → sibLE x z = true :=
    fun x y z => lexLE_trans _ x y z
  have hidpos : ∀ p ∈ catIds cats, p ≠ 0 := by
    intro p hp
    rcases List.mem_map.mp hp with ⟨c2, hc2, hpe⟩
    exact hpe ▸ hpos c2 hc2
  refine ⟨?_, fun p => sorted_sortLe sibLE hptrans hptot _,
    sorted_sortLe sibLE hptrans hptot _⟩
  intro c hc
  constructor
  · intro p
    unfold childrenData
    rw [mem_sorted_filter_map lang cats hnd _ c hc]
    have hiff : placedUnder cats c = some p ↔ (c.parent = some p ∧ p ∈ catIds cats) := by
      constructor
      · intro hthis
        rcases hpar : c.parent with _ | q
        · simp [placedUnder, hpar] at hthis
        · simp only [placedUnder, hpar] at hthis
          by_cases hcond : q ≠ 0 ∧ q ∈ catIds cats
          · rw [if_pos hcond] at hthis
            rcases Option.some_inj.mp hthis with rfl
            exact ⟨rfl, hcond.2⟩
          · rw [if_neg hcond] at hthis
            exact absurd hthis (by simp)
      · rintro ⟨hpar, hmem⟩
        have hcond : p ≠ 0 ∧ p ∈ catIds cats := ⟨hidpos p hmem, hmem⟩
        simp only [placedUnder, hpar]
        rw [if_pos hcond]
    constructor
    · intro hpl
      exact hiff.mp (by simpa using hpl)
    · intro hpm
      have := hiff.mpr hpm
      simp [this]
  · unfold rootsData
    rw [mem_sorted_filter_map lang cats hnd _ c hc]
    have hiff : placedUnder cats c = none ↔ (∀ p, c.parent = some p → p ∉ catIds cats) := by
      constructor
      · intro hnone p hpar hmem
        have hcond : p ≠ 0 ∧ p ∈ catIds cats := ⟨hidpos p hmem, hmem⟩
        simp only [placedUnder, hpar] at hnone
        rw [if_pos hcond] at hnone
        exact absurd hnone (by simp)
      · intro hno
        rcases hpar : c.parent with _ | q
        · simp [placedUnder, hpar]
        · have hq : q ∉ catIds cats := hno q hpar
          simp only [placedUnder, hpar]
          rw [if_neg (by intro hcond; exact hq hcond.2)]
    constructor
    · intro hpl
      exact hiff.mp (by simpa using hpl)
    · intro hpm
      have := hiff.mpr hpm
      simp [this]

/-- A concrete two-node category forest: a root (id 1) and a child (id 2). -/
def catW1 : Cat :=
  { id := 1, parent := none, name := "b", name_ru := none, name_uz := none,
    slug := "b", icon := "", iconUrl := "", is_leaf := false, order := 0 }

/-- The child category of the concrete forest. -/
def catW2 : Cat :=
  { id := 2, parent := some 1, name := "a", name_ru := none, name_uz := none,
    slug := "a", icon := "", iconUrl := "", is_leaf := true, order := 0 }

/-- The concrete forest used by witnesses. -/
def catsW : List Cat := [catW1, catW2]

theorem acyclic_catsW : Acyclic catsW := by
  have hstep1 : Option.bind (some 1) (parentInEnv catsW) = none := by decide
  have hstep2 : Option.bind (some 2) (parentInEnv catsW) = some 1 := by decide
  intro c hc n
  have hc2 : c = catW1 ∨ c = catW2 := by simpa [catsW] using hc
  rcases hc2 with rfl | rfl
  · show iterParent catsW n (Option.bind (some catW1.id) (parentInEnv catsW)) ≠ some catW1.id
    rw [show (catW1.id : Nat) = 1 from rfl, hstep1, iterParent_none]
    simp
  · show iterParent catsW n (Option.bind (some catW2.id) (parentInEnv catsW)) ≠ some catW2.id
    rw [show (catW2.id : Nat) = 2 from rfl, hstep2]
    cases n with
    | zero => decide
    | succ m =>
      show iterParent catsW m (Option.bind (some 1) (parentInEnv catsW)) ≠ some 2
      rw [hstep1, iterParent_none]
      simp

theorem closed_catsW : ClosedParents catsW := by
  intro c hc p hp
  have hc2 : c = catW1 ∨ c = catW2 := by simpa [catsW] using hc
  rcases hc2 with rfl | rfl
  · simp [catW1] at hp
  · have : p = 1 := by
      have : some (1 : Nat) = some p := hp
      exact (Option.some_inj.mp this).symm
    rw [this]; decide

/-- Witness for C6 at the concrete two-node forest. -/
theorem tree_assembly_correct_witness :
    (catIds catsW).Nodup ∧ (∀ c ∈ catsW, c.id ≠ 0) ∧ Acyclic catsW ∧
    ((∀ c ∈ catsW,
      (∀ p, nodeOf "ru" c ∈ childrenData "ru" catsW p ↔
        (c.parent = some p ∧ p ∈ catIds catsW)) ∧
      (nodeOf "ru" c ∈ rootsData "ru" catsW ↔
        (∀ p, c.parent = some p → p ∉ catIds catsW))) ∧
    (∀ p, (childrenData "ru" catsW p).Pairwise (fun a b => sibLE a b = true)) ∧
    (rootsData "ru" catsW).Pairwise (fun a b => sibLE a b = true)) :=
  ⟨by decide, by decide, acyclic_catsW,
    tree_assembly_correct "ru" catsW (by decide) (by decide) acyclic_catsW⟩

/-- With distinct ids, looking a member category up by its own id finds
exactly it. -/
theorem find_id_eq (cats : List Cat) (hnd : (catIds cats).Nodup)
    (c : Cat) (hc : c ∈ cats) :
    cats.find? (fun d => d.id == c.id) = some c := by
  have hnd2 : (cats.map (fun d => d.id)).Nodup := hnd
  have hsome : (cats.find? (fun d => d.id == c.id)).isSome := by
    rw [List.find?_isSome]
    exact ⟨c, hc, by simp⟩
  obtain ⟨m, hm⟩ := Option.isSome_iff_exists.mp hsome
  have hmem : m ∈ cats := List.mem_of_find?_eq_some hm
  have hpm : m.id = c.id := by
    have := List.find?_some hm
    simpa using this
  have : m = c := List.inj_on_of_nodup_map hnd2 hmem hc hpm
  rw [hm, this]

/-- With distinct ids, the parent map agrees with the parent field. -/
theorem parentInEnv_eq (cats : List Cat) (hnd : (catIds cats).Nodup)
    (c : Cat) (hc : c ∈ cats) :
    parentInEnv cats c.id = c.parent := by
  unfold parentInEnv
  rw [find_id_eq cats hnd c hc]
  rfl

/-- Main walk invariant: starting at a member category and avoiding the
already-visited ids (all of which reach the current node by parent
steps), the walk finishes within the remaining fuel and yields a
duplicate-free chain of loaded ids headed by the current id. -/
theorem ancestorChain_aux (cats : List Cat) (hnd : (catIds cats).Nodup)
    (hcl : ClosedParents cats) (hacyc : Acyclic cats) :
    ∀ fuel (avoid : List Nat) (c : Cat), c ∈ cats →
      avoid.Nodup → (∀ a ∈ avoid, a ∈ catIds cats) → c.id ∉ avoid →
      (∀ a ∈ avoid, ∃ k, iterParent cats (k + 1) (some a) = some c.id) →
      cats.length ≤ fuel + avoid.length →
      ∃ l, ancestorChain cats fuel (some c) = some l ∧ l.Nodup ∧
        (∀ i ∈ l, i ∈ catIds cats) ∧ l.head? = some c.id ∧
        (∀ i ∈ l, i ∉ avoid) := by
  intro fuel
  induction fuel with
  | zero =>
    intro avoid c hc hand havsub hcnot hreach hlen
    exfalso
    have hsub : (c.id :: avoid) ⊆ catIds cats := by
      intro x hx
      rcases List.mem_cons.mp hx with rfl | hx
      · exact List.mem_map.mpr ⟨c, hc, rfl⟩
      · exact havsub x hx
    have hndall : (c.id :: avoid).Nodup := List.nodup_cons.mpr ⟨hcnot, hand⟩
    have hle := (hndall.subperm hsub).length_le
    have hci : (catIds cats).length = cats.length := List.length_map _ _
    simp only [List.length_cons, hci] at hle
    omega
  | succ fuel ih =>
    intro avoid c hc hand havsub hcnot hreach hlen
    have hpe : parentInEnv cats c.id = c.parent := parentInEnv_eq cats hnd c hc
    rcases hpar : c.parent with _ | p
    · refine ⟨[c.id], ?_, by simp, ?_, rfl, ?_⟩
      · simp [ancestorChain, hpar]
      · intro i hi
        rcases List.mem_singleton.mp hi with rfl
        exact List.mem_map.mpr ⟨c, hc, rfl⟩
      · intro i hi
        rcases List.mem_singleton.mp hi with rfl
        exact hcnot
    · have hpmem : p ∈ catIds cats := hcl c hc p hpar
      obtain ⟨d, hd, hdid⟩ := List.mem_map.mp hpmem
      have hfind : cats.find? (fun x => x.id == p) = some d := by
        have := find_id_eq cats hnd d hd
        rw [hdid] at this
        exact this
      have hstep1 : iterParent cats 1 (some c.id) = some p := by
        show iterParent cats 0 ((some c.id).bind (parentInEnv cats)) = some p
        simp [hpe, hpar, iterParent]
      have hdc : d.id ≠ c.id := by
        intro he
        have hcyc : iterParent cats (0 + 1) (some c.id) = some c.id := by
          rw [show (0 + 1 : Nat) = 1 from rfl, hstep1, ← hdid, he]
        exact hacyc c hc 0 hcyc
      have hdav : d.id ∉ avoid := by
        intro ha
        obtain ⟨k, hk⟩ := hreach d.id ha
        have hkk : iterParent cats (1 + (k + 1)) (some d.id) = some p := by
          rw [iterParent_add cats 1 (k + 1), hk, hstep1]
        have hself : iterParent cats ((k + 1) + 1) (some d.id) = some d.id := by
          rw [Nat.add_comm (k + 1) 1, hkk, hdid]
        exact hacyc d hd (k + 1) hself
      have hih := ih (c.id :: avoid) d hd
        (List.nodup_cons.mpr ⟨hcnot, hand⟩)
        (by
          intro a ha
          rcases List.mem_cons.mp ha with rfl | ha
          · exact List.mem_map.mpr ⟨c, hc, rfl⟩
          · exact havsub a ha)
        (by
          intro hmem
          rcases List.mem_cons.mp hmem with he | he
          · exact hdc he
          · exact hdav he)
        (by
          intro a ha
          rcases List.mem_cons.mp ha with rfl | ha
          · exact ⟨0, by rw [show (0 + 1 : Nat) = 1 from rfl, hstep1, hdid]⟩
          · obtain ⟨k, hk⟩ := hreach a ha
            refine ⟨k + 1, ?_⟩
            rw [Nat.add_comm (k + 1) 1, iterParent_add cats 1 (k + 1), hk, hstep1, hdid])
        (by simp only [List.length_cons]; omega)
      obtain ⟨l, hl, hlnd, hlsub, hlhead, hlav⟩ := hih
      refine ⟨c.id :: l, ?_, ?_, ?_, rfl, ?_⟩
      · simp [ancestorChain, hpar, hfind, hl]
      · refine List.nodup_cons.mpr ⟨?_, hlnd⟩
        intro hcl2
        exact (hlav c.id hcl2) (List.mem_cons_self _ _)
      · intro i hi
        rcases List.mem_cons.mp hi with rfl | hi
        · exact List.mem_map.mpr ⟨c, hc, rfl⟩
        · exact hlsub i hi
      · intro i hi
        rcases List.mem_cons.mp hi with rfl | hi
        · exact hcnot
        · exact fun ha => hlav i hi (List.mem_cons_of_mem _ ha)

/-- C9: for forest-shaped categories (distinct ids, closed parent links,
no node its own ancestor), the ancestor walk of CategoryAttributesView
terminates: with fuel equal to the number of categories the loop finishes,
and the collected id list — the walk's exact step count — is the
duplicate-free chain from the node to its root (its length is the node's
depth), never exceeding the number of loaded categories. -/
theorem ancestor_walk_terminates (cats : List Cat) (hnd : (catIds cats).Nodup)
    (hcl : ClosedParents cats) (hacyc : Acyclic cats) (c : Cat) (hc : c ∈ cats) :
    ∃ l, ancestorChain cats cats.length (some c) = some l ∧
      l.Nodup ∧ (∀ i ∈ l, i ∈ catIds cats) ∧ l.head? = some c.id ∧
      l.length ≤ cats.length := by
  obtain ⟨l, h1, h2, h3, h4, _⟩ :=
    ancestorChain_aux cats hnd hcl hacyc cats.length [] c hc (by simp)
      (by simp) (by simp) (by simp) (by simp)
  refine ⟨l, h1, h2, h3, h4, ?_⟩
  have hle := (h2.subperm (fun x hx => h3 x hx)).length_le
  have hci : (catIds cats).length = cats.length := List.length_map _ _
  omega

/-- Witness for C9 at the concrete two-node forest, walking from the
child. -/
theorem ancestor_walk_terminates_witness :
    (catIds catsW).Nodup ∧ ClosedParents catsW ∧ Acyclic catsW ∧ catW2 ∈ catsW ∧
    (∃ l, ancestorChain catsW catsW.length (some catW2) = some l ∧
      l.Nodup ∧ (∀ i ∈ l, i ∈ catIds catsW) ∧ l.head? = some catW2.id ∧
      l.length ≤ catsW.length) :=
  ⟨by decide, closed_catsW, acyclic_catsW, by decide,
    ancestor_walk_terminates catsW (by decide) closed_catsW acyclic_catsW catW2
      (by decide)⟩

/-- An attribute `color` declared as a choice at the root category. -/
def attrW1 : Attr :=
  { id := 1, category_id := 1, key := "color", typ := "choice",
    options := ["red", "blue"], required := false }

/-- The same key `color` redeclared as text at the child category. -/
def attrW2 : Attr :=
  { id := 2, category_id := 2, key := "color", typ := "text",
    options := [], required := false }

/-- The attribute table with a duplicated key across the chain. -/
def attrsW : List Attr := [attrW1, attrW2]

/-- C1 counterexample: resolving the child category (id 2) whose chain
declares `color` at both the root and the child yields BOTH records — the
key appears twice; there is no descendant-wins merge. -/
theorem category_attributes_duplicate_key_counterexample :
    (categoryAttributesView catsW attrsW 2).map (fun r => r.2.map Attr.key) =
      some ["color", "color"] ∧
    ¬ ((["color", "color"].count "color") ≤ 1) := by
  constructor
  · decide
  · decide

/-- C1 amended: the resolved schema is exactly the unmerged collection of
every Attribute record declared at any node of the ancestor chain, sorted
by key; a key declared at several chain nodes appears once per
declaration. -/
theorem category_attributes_unmerged (cats : List Cat) (attrs : List Attr)
    (hnd : (catIds cats).Nodup) (hcl : ClosedParents cats) (hacyc : Acyclic cats)
    (c : Cat) (hc : c ∈ cats) :
    ∃ chain out,
      ancestorChain cats cats.length (some c) = some chain ∧
      categoryAttributesView cats attrs c.id = some (200, out) ∧
      out.Perm (attrs.filter (fun a => chain.contains a.category_id)) ∧
      out.Pairwise (fun a b => keyLE a b = true) := by
  obtain ⟨chain, h1, _, _, _, _⟩ :=
    ancestorChain_aux cats hnd hcl hacyc cats.length [] c hc (by simp)
      (by simp) (by simp) (by simp) (by simp)
  have step1 : categoryAttributesView cats attrs c.id =
      match ancestorChain cats cats.length (some c) with
      | none => none
      | some ids =>
        some (200, sortLe keyLE (attrs.filter (fun a => ids.contains a.category_id))) := by
    unfold categoryAttributesView
    rw [find_id_eq cats hnd c hc]
  refine ⟨chain, sortLe keyLE (attrs.filter (fun a => chain.contains a.category_id)),
    h1, ?_, sortLe_perm _ _, ?_⟩
  · rw [step1, h1]
  · refine sorted_sortLe keyLE ?_ ?_ _
    · intro x y z hxy hyz
      exact strLE_trans _ _ _ hxy hyz
    · intro x y
      exact strLE_total _ _

/-- Witness for the amended C1 at the concrete forest and attribute
table. -/
theorem category_attributes_unmerged_witness :
    (catIds catsW).Nodup ∧ ClosedParents catsW ∧ Acyclic catsW ∧ catW2 ∈ catsW ∧
    (∃ chain out,
      ancestorChain catsW catsW.length (some catW2) = some chain ∧
      categoryAttributesView catsW attrsW catW2.id = some (200, out) ∧
      out.Perm (attrsW.filter (fun a => chain.contains a.category_id)) ∧
      out.Pairwise (fun a b => keyLE a b = true)) :=
  ⟨by decide, closed_catsW, acyclic_catsW, by decide,
    category_attributes_unmerged catsW attrsW (by decide) closed_catsW
      acyclic_catsW catW2 (by decide)⟩

/-- C2 counterexample: resolving the schema for a category id that does
not exist answers 200 with an empty list — not NotFound (404). -/
theorem category_attributes_missing_counterexample :
    categoryAttributesView [] [] 1 = some (200, []) ∧ (200 : Nat) ≠ 404 := by
  constructor
  · decide
  · decide

/-- C2 amended: a nonexistent category id yields the same successful
empty-schema response (HTTP 200, empty list) as an existing category with
no attributes declared anywhere in its chain; neither is an error. -/
theorem category_attributes_empty_cases (cats : List Cat) (attrs : List Attr)
    (hnd : (catIds cats).Nodup) :
    (∀ pk, pk ∉ catIds cats → categoryAttributesView cats attrs pk = some (200, [])) ∧
    (∀ c ∈ cats, ∀ chain, ancestorChain cats cats.length (some c) = some chain →
      (∀ a ∈ attrs, a.category_id ∉ chain) →
      categoryAttributesView cats attrs c.id = some (200, [])) := by
  constructor
  · intro pk hpk
    unfold categoryAttributesView
    have hfind : cats.find? (fun d => d.id == pk) = none := by
      rw [List.find?_eq_none]
      intro d hd
      simp only [beq_iff_eq]
      intro he
      exact hpk (he ▸ List.mem_map.mpr ⟨d, hd, rfl⟩)
    rw [hfind]
  · intro c hc chain hchain hno
    have step1 : categoryAttributesView cats attrs c.id =
        match ancestorChain cats cats.length (some c) with
        | none => none
        | some ids =>
          some (200, sortLe keyLE (attrs.filter (fun a => ids.contains a.category_id))) := by
      unfold categoryAttributesView
      rw [find_id_eq cats hnd c hc]
    rw [step1, hchain]
    show some (200, sortLe keyLE (attrs.filter (fun a => chain.contains a.category_id)))
      = some (200, [])
    have hfilter : attrs.filter (fun a => chain.contains a.category_id) = [] := by
      rw [List.filter_eq_nil_iff]
      intro a ha hc2
      exact hno a ha (List.mem_of_elem_eq_true hc2)
    rw [hfilter]
    rfl

/-- Witness for the amended C2: a missing id (99) and the child category
of the concrete forest with an empty attribute table. -/
theorem category_attributes_empty_cases_witness :
    (catIds catsW).Nodup ∧ (99 ∉ catIds catsW) ∧
    ancestorChain catsW catsW.length (some catW2) = some [2, 1] ∧
    categoryAttributesView catsW [] 99 = some (200, []) ∧
    categoryAttributesView catsW [] catW2.id = some (200, []) := by
  refine ⟨by decide, by decide, by decide, ?_, ?_⟩
  · exact (category_attributes_empty_cases catsW [] (by decide)).1 99 (by decide)
  · exact (category_attributes_empty_cases catsW [] (by decide)).2 catW2 (by decide)
      [2, 1] (by decide) (by intro a ha; simp at ha)

/-- C3 (amended): a create request with truthy required fields and
integer ids referring to a missing category (or missing location) is
rejected with HTTP 400 and a field-addressed "Not found." message — not
404 — and the check short-circuits before any mutation: the listing table
is unchanged. -/
theorem listing_create_missing_refs (env : ListingEnv) (st : List Listing)
    (data : List (String × PyVal)) (cid lid : Int)
    (ht : pyTruthy (dictGetD data "title" .pnone) = true)
    (hcv : pyTruthy (dictGetD data "category" .pnone) = true)
    (hlv : pyTruthy (dictGetD data "location" .pnone) = true)
    (hci : pyInt (dictGetD data "category" .pnone) = some cid)
    (hli : pyInt (dictGetD data "location" .pnone) = some lid) :
    (env.cats.any (fun c => (c.id : Int) == cid) = false →
      listingCreateRaw env st data = some (.err 400 "category" "Not found.", st)) ∧
    (env.cats.any (fun c => (c.id : Int) == cid) = true →
      env.locs.contains lid = false →
      listingCreateRaw env st data = some (.err 400 "location" "Not found.", st)) := by
  constructor
  · intro hmiss
    have hrec : createListingRecord env data = .error ("category", "Not found.") := by
      unfold createListingRecord
      simp only [ht, hcv, hlv, hci, hli, hmiss]
      simp
    unfold listingCreateRaw
    rw [hrec]
  · intro hexist hlmiss
    have hrec : createListingRecord env data = .error ("location", "Not found.") := by
      unfold createListingRecord
      simp only [ht, hcv, hlv, hci, hli, hexist, hlmiss]
      simp
    unfold listingCreateRaw
    rw [hrec]

/-- A concrete listing environment over the two-node forest; location id 5
exists; the attribute table is empty. -/
def envW : ListingEnv :=
  { cats := catsW, locs := [5], attrsTable := [],
    condChoices := ["new", "used"], dealChoices := ["sell", "rent"],
    sellerChoices := ["person", "business"],
    condDefault := "used", dealDefault := "sell", sellerDefault := "person",
    phone := "+998900000000", parse := decimalParse, newId := 10, userId := 7 }

/-- A create payload whose category id (99) exists nowhere. -/
def dataMissingCat : List (String × PyVal) :=
  [("title", .pstr "bike"), ("category", .pint 99), ("location", .pint 5)]

/-- Witness for C3 at the concrete environment: the category id 99 is
absent, the response is the 400 "Not found." error and no listing is
persisted. -/
theorem listing_create_missing_refs_witness :
    pyTruthy (dictGetD dataMissingCat "title" .pnone) = true ∧
    pyInt (dictGetD dataMissingCat "category" .pnone) = some 99 ∧
    envW.cats.any (fun c => (c.id : Int) == 99) = false ∧
    listingCreateRaw envW [] dataMissingCat =
      some (.err 400 "category" "Not found.", []) :=
  ⟨by decide, by decide, by decide,
    (listing_create_missing_refs envW [] dataMissingCat 99 5 (by decide) (by decide)
      (by decide) (by decide) (by decide)).1 (by decide)⟩

/-- C3 counterexample to the claimed status: the response to a create
whose category does not exist has HTTP status 400 (with the
field-addressed "Not found." body) — not 404; nothing is persisted. -/
theorem listing_create_missing_ref_counterexample :
    (listingCreateRaw envW [] dataMissingCat).map
      (fun r => (statusOf r.1, errOf r.1, r.2.length)) =
      some (400, some ("category", "Not found."), 0) ∧ (400 : Nat) ≠ 404 := by
  constructor
  · decide
  · decide

/-- C4 (amended): when every listing-level validation passes and a
non-empty attribute list is submitted whose coercion fails, the view
still answers an error — but the created listing stays in the table: the
attribute failure does NOT roll back the listing creation. -/
theorem listing_create_attr_failure_persists (env : ListingEnv)
    (st : List Listing) (data : List (String × PyVal)) (listing : Listing)
    (items : List PyVal) (schema : List Attr) (e : String × String)
    (hrec : createListingRecord env data = .ok listing)
    (hattr : dictGetD data "attributes" (.plist []) = .plist items)
    (hne : items.isEmpty = false)
    (hschema : resolveSchemaSpec env.cats env.attrsTable listing.category_id =
      some schema)
    (hfail : saveAttributesSpec env.parse schema items = .error e) :
    listingCreateRaw env st data = some (.err 400 e.1 e.2, st ++ [listing]) ∧
    st ++ [listing] ≠ st := by
  constructor
  · unfold listingCreateRaw
    rw [hrec, hattr]
    simp only [hne, Bool.false_eq_true, if_false, hschema, hfail]
  · intro hh
    have := congrArg List.length hh
    simp at this

/-- A create payload that is valid except for its attribute list, whose
key is not declared anywhere (the schema is empty). -/
def dataAttrBad : List (String × PyVal) :=
  [("title", .pstr "bike"), ("category", .pint 1), ("location", .pint 5),
   ("attributes", .plist [.pdict [("key", .pstr "color"), ("value", .pstr "red")]])]

/-- The row the concrete bad-attribute create request constructs. -/
def listingW : Listing :=
  { id := 10, user := 7, title := .pstr "bike", description := .pstr "",
    price_amount := ((0 : Int) : Rat), price_currency := .pstr "UZS",
    is_price_negotiable := false, condition := "used", deal_type := "sell",
    seller_type := "person", category_id := 1, location_id := 5,
    lat := none, lon := none, contact_phone_masked := "+998900000000",
    contact_phone := .pnone, contact_name := .pnone, contact_email := .pnone,
    attrs := [] }

/-- Witness for the amended C4 at the concrete environment. -/
theorem listing_create_attr_failure_persists_witness :
    createListingRecord envW dataAttrBad = .ok listingW ∧
    (listingCreateRaw envW [] dataAttrBad =
        some (.err 400 "color" "Unknown attribute.", [] ++ [listingW]) ∧
      [] ++ [listingW] ≠ ([] : List Listing)) :=
  ⟨rfl,
    listing_create_attr_failure_persists envW [] dataAttrBad listingW
      [.pdict [("key", .pstr "color"), ("value", .pstr "red")]] []
      ("color", "Unknown attribute.") rfl rfl rfl rfl rfl⟩

/-- C4 counterexample: a concrete create whose attribute coercion fails
answers an error (HTTP 400), yet one listing row is persisted — the
partially-created listing is observable, contradicting the claimed
rollback. -/
theorem listing_create_not_atomic_counterexample :
    (listingCreateRaw envW [] dataAttrBad).map
      (fun r => (statusOf r.1, r.2.length)) = some (400, 1) ∧ (1 : Nat) ≠ 0 := by
  constructor
  · decide
  · decide

theorem stageCategory_absent (env : ListingEnv) (data : List (String × PyVal))
    (h : data.lookup "category" = none) : stageCategory env data = .ok none := by
  unfold stageCategory dictGetD
  rw [h]
  rfl

theorem stageLocation_absent (env : ListingEnv) (data : List (String × PyVal))
    (h : data.lookup "location" = none) : stageLocation env data = .ok none := by
  unfold stageLocation dictGetD
  rw [h]
  rfl

theorem stagePrice_absent (env : ListingEnv) (data : List (String × PyVal))
    (h : data.lookup "price_amount" = none) : stagePrice env data = .ok none := by
  unfold stagePrice
  rw [h]

theorem stageEnum_absent (data : List (String × PyVal)) (key : String)
    (choices : List String) (h : data.lookup key = none) :
    stageEnum data key choices = .ok none := by
  unfold stageEnum
  rw [h]

/-- The frame property of the field-update phase: every field whose key is
absent from the payload keeps its value, and the attribute set, id, owner
and phone mask are never touched by this phase. -/
theorem patchCore_frame (env : ListingEnv) (data : List (String × PyVal))
    (l l2 : Listing) (h : patchCore env data l = .ok l2) :
    ((data.lookup "title").isNone → l2.title = l.title) ∧
    ((data.lookup "description").isNone → l2.description = l.description) ∧
    ((data.lookup "price_amount").isNone → l2.price_amount = l.price_amount) ∧
    ((data.lookup "price_currency").isNone → l2.price_currency = l.price_currency) ∧
    ((data.lookup "is_price_negotiable").isNone →
      l2.is_price_negotiable = l.is_price_negotiable) ∧
    ((data.lookup "condition").isNone → l2.condition = l.condition) ∧
    ((data.lookup "deal_type").isNone → l2.deal_type = l.deal_type) ∧
    ((data.lookup "seller_type").isNone → l2.seller_type = l.seller_type) ∧
    ((data.lookup "category").isNone → l2.category_id = l.category_id) ∧
    ((data.lookup "location").isNone → l2.location_id = l.location_id) ∧
    ((data.lookup "lat").isNone → l2.lat = l.lat) ∧
    ((data.lookup "lon").isNone → l2.lon = l.lon) ∧
    ((data.lookup "contact_phone").isNone → l2.contact_phone = l.contact_phone) ∧
    ((data.lookup "contact_name").isNone → l2.contact_name = l.contact_name) ∧
    ((data.lookup "contact_email").isNone → l2.contact_email = l.contact_email) ∧
    l2.attrs = l.attrs ∧ l2.id = l.id ∧ l2.user = l.user ∧
    l2.contact_phone_masked = l.contact_phone_masked := by
  unfold patchCore at h
  by_cases hti : (!(isNoneVal (dictGetD data "title" .pnone))
      && !(pyTruthy (dictGetD data "title" .pnone))) = true
  · rw [if_pos hti] at h
    cases h
  · rw [if_neg hti] at h
    rcases hcat : stageCategory env data with e | catUpd <;> rw [hcat] at h
    · cases h
    rcases hloc : stageLocation env data with e | locUpd <;> rw [hloc] at h
    · cases h
    rcases hpri : stagePrice env data with e | priceUpd <;> rw [hpri] at h
    · cases h
    rcases hcon : stageEnum data "condition" env.condChoices with e | condUpd <;>
      rw [hcon] at h
    · cases h
    rcases hdea : stageEnum data "deal_type" env.dealChoices with e | dealUpd <;>
      rw [hdea] at h
    · cases h
    rcases hsel : stageEnum data "seller_type" env.sellerChoices with e | sellerUpd <;>
      rw [hsel] at h
    · cases h
    injection h with h2
    subst h2
    refine ⟨?_, ?_, ?_, ?_, ?_, ?_, ?_, ?_, ?_, ?_, ?_, ?_, ?_, ?_, ?_,
      rfl, rfl, rfl, rfl⟩
    · intro hlk
      rw [Option.isNone_iff_eq_none] at hlk
      simp [dictGetD, hlk, isNoneVal]
    · intro hlk
      rw [Option.isNone_iff_eq_none] at hlk
      simp [hlk]
    · intro hlk
      rw [Option.isNone_iff_eq_none] at hlk
      have h0 := (stagePrice_absent env data hlk).symm.trans hpri
      injection h0 with h0
      simp [← h0]
    · intro hlk
      rw [Option.isNone_iff_eq_none] at hlk
      simp [hlk]
    · intro hlk
      rw [Option.isNone_iff_eq_none] at hlk
      simp [hlk]
    · intro hlk
      rw [Option.isNone_iff_eq_none] at hlk
      have h0 := (stageEnum_absent data "condition" env.condChoices hlk).symm.trans hcon
      injection h0 with h0
      simp [← h0]
    · intro hlk
      rw [Option.isNone_iff_eq_none] at hlk
      have h0 := (stageEnum_absent data "deal_type" env.dealChoices hlk).symm.trans hdea
      injection h0 with h0
      simp [← h0]
    · intro hlk
      rw [Option.isNone_iff_eq_none] at hlk
      have h0 := (stageEnum_absent data "seller_type" env.sellerChoices hlk).symm.trans hsel
      injection h0 with h0
      simp [← h0]
    · intro hlk
      rw [Option.isNone_iff_eq_none] at hlk
      have h0 := (stageCategory_absent env data hlk).symm.trans hcat
      injection h0 with h0
      simp [← h0]
    · intro hlk
      rw [Option.isNone_iff_eq_none] at hlk
      have h0 := (stageLocation_absent env data hlk).symm.trans hloc
      injection h0 with h0
      simp [← h0]
    · intro hlk
      rw [Option.isNone_iff_eq_none] at hlk
      simp [hlk]
    · intro hlk
      rw [Option.isNone_iff_eq_none] at hlk
      simp [hlk]
    · intro hlk
      rw [Option.isNone_iff_eq_none] at hlk
      simp [dictGetD, hlk, isNoneVal]
    · intro hlk
      rw [Option.isNone_iff_eq_none] at hlk
      simp [dictGetD, hlk, isNoneVal]
    · intro hlk
      rw [Option.isNone_iff_eq_none] at hlk
      simp [dictGetD, hlk, isNoneVal]

/-- C5: listing update has partial-update semantics — on a successful
patch, every field whose key is absent from the payload keeps its
pre-call value, and the attribute set is kept when no attribute list is
supplied; id and owner never change. -/
theorem listing_update_partial (env : ListingEnv) (st : List Listing)
    (pk uid : Nat) (data : List (String × PyVal)) (l l2 : Listing)
    (st2 : List Listing)
    (hfind : findListing st pk uid = some l)
    (hrun : listingUpdateRaw env st pk uid data = some (.updated l2, st2)) :
    ((data.lookup "title").isNone → l2.title = l.title) ∧
    ((data.lookup "description").isNone → l2.description = l.description) ∧
    ((data.lookup "price_amount").isNone → l2.price_amount = l.price_amount) ∧
    ((data.lookup "price_currency").isNone → l2.price_currency = l.price_currency) ∧
    ((data.lookup "is_price_negotiable").isNone →
      l2.is_price_negotiable = l.is_price_negotiable) ∧
    ((data.lookup "condition").isNone → l2.condition = l.condition) ∧
    ((data.lookup "deal_type").isNone → l2.deal_type = l.deal_type) ∧
    ((data.lookup "seller_type").isNone → l2.seller_type = l.seller_type) ∧
    ((data.lookup "category").isNone → l2.category_id = l.category_id) ∧
    ((data.lookup "location").isNone → l2.location_id = l.location_id) ∧
    ((data.lookup "lat").isNone → l2.lat = l.lat) ∧
    ((data.lookup "lon").isNone → l2.lon = l.lon) ∧
    ((data.lookup "contact_phone").isNone → l2.contact_phone = l.contact_phone) ∧
    ((data.lookup "contact_name").isNone → l2.contact_name = l.contact_name) ∧
    ((data.lookup "contact_email").isNone → l2.contact_email = l.contact_email) ∧
    ((data.lookup "attributes").isNone → l2.attrs = l.attrs) ∧
    l2.id = l.id ∧ l2.user = l.user := by
  unfold listingUpdateRaw at hrun
  rw [hfind] at hrun
  dsimp only at hrun
  rcases hpc : patchCore env data l with e | l2p
  · rw [hpc] at hrun
    simp at hrun
  rw [hpc] at hrun
  dsimp only at hrun
  obtain ⟨f1, f2, f3, f4, f5, f6, f7, f8, f9, f10, f11, f12, f13, f14, f15,
    fattrs, fid, fuser, fmask⟩ := patchCore_frame env data l l2p hpc
  have hattrImp : ∀ v, dictGetD data "attributes" .pnone = v →
      (match v with | PyVal.plist _ => True | _ => False) →
      (data.lookup "attributes").isNone → False := by
    intro v hv hlist hlk
    rw [Option.isNone_iff_eq_none] at hlk
    unfold dictGetD at hv
    rw [hlk] at hv
    cases hv
    exact hlist
  cases hat : dictGetD data "attributes" .pnone with
  | plist items =>
    rw [hat] at hrun
    dsimp only at hrun
    rcases hres : resolveSchemaSpec env.cats env.attrsTable l2p.category_id with
      _ | schema
    · rw [hres] at hrun
      simp at hrun
    rw [hres] at hrun
    dsimp only at hrun
    rcases hsv : saveAttributesSpec env.parse schema items with e | avs
    · rw [hsv] at hrun
      simp at hrun
    rw [hsv] at hrun
    simp only [Option.some.injEq, Prod.mk.injEq, WriteResp.updated.injEq] at hrun
    obtain ⟨hl2, hst2⟩ := hrun
    subst hl2
    exact ⟨f1, f2, f3, f4, f5, f6, f7, f8, f9, f10, f11, f12, f13, f14, f15,
      fun hlk => absurd hlk (fun hk => hattrImp _ hat trivial hk), fid, fuser⟩
  | pnone =>
    rw [hat] at hrun
    simp only [Option.some.injEq, Prod.mk.injEq, WriteResp.updated.injEq] at hrun
    obtain ⟨hl2, hst2⟩ := hrun
    subst hl2
    exact ⟨f1, f2, f3, f4, f5, f6, f7, f8, f9, f10, f11, f12, f13, f14, f15,
      fun hlk => fattrs, fid, fuser⟩
  | pbool b =>
    rw [hat] at hrun
    simp only [Option.some.injEq, Prod.mk.injEq, WriteResp.updated.injEq] at hrun
    obtain ⟨hl2, hst2⟩ := hrun
    subst hl2
    exact ⟨f1, f2, f3, f4, f5, f6, f7, f8, f9, f10, f11, f12, f13, f14, f15,
      fun hlk => fattrs, fid, fuser⟩
  | pint n =>
    rw [hat] at hrun
    simp only [Option.some.injEq, Prod.mk.injEq, WriteResp.updated.injEq] at hrun
    obtain ⟨hl2, hst2⟩ := hrun
    subst hl2
    exact ⟨f1, f2, f3, f4, f5, f6, f7, f8, f9, f10, f11, f12, f13, f14, f15,
      fun hlk => fattrs, fid, fuser⟩
  | pfloat q =>
    rw [hat] at hrun
    simp only [Option.some.injEq, Prod.mk.injEq, WriteResp.updated.injEq] at hrun
    obtain ⟨hl2, hst2⟩ := hrun
    subst hl2
    exact ⟨f1, f2, f3, f4, f5, f6, f7, f8, f9, f10, f11, f12, f13, f14, f15,
      fun hlk => fattrs, fid, fuser⟩
  | pstr str =>
    rw [hat] at hrun
    simp only [Option.some.injEq, Prod.mk.injEq, WriteResp.updated.injEq] at hrun
    obtain ⟨hl2, hst2⟩ := hrun
    subst hl2
    exact ⟨f1, f2, f3, f4, f5, f6, f7, f8, f9, f10, f11, f12, f13, f14, f15,
      fun hlk => fattrs, fid, fuser⟩
  | pdict d =>
    rw [hat] at hrun
    simp only [Option.some.injEq, Prod.mk.injEq, WriteResp.updated.injEq] at hrun
    obtain ⟨hl2, hst2⟩ := hrun
    subst hl2
    exact ⟨f1, f2, f3, f4, f5, f6, f7, f8, f9, f10, f11, f12, f13, f14, f15,
      fun hlk => fattrs, fid, fuser⟩

/-- A concrete pre-existing listing owned by user 7. -/
def listingW0 : Listing :=
  { id := 3, user := 7, title := .pstr "old", description := .pstr "d",
    price_amount := ((2 : Int) : Rat), price_currency := .pstr "UZS",
    is_price_negotiable := true, condition := "used", deal_type := "sell",
    seller_type := "person", category_id := 1, location_id := 5,
    lat := none, lon := none, contact_phone_masked := "m",
    contact_phone := .pstr "p", contact_name := .pstr "n",
    contact_email := .pstr "e", attrs := [("color", .pstr "red")] }

/-- A payload that only updates the price amount. -/
def dataPriceOnly : List (String × PyVal) := [("price_amount", .pint 9)]

/-- The listing after the price-only update: only the price changed. -/
def listingW0p : Listing := { listingW0 with price_amount := ((9 : Int) : Rat) }

/-- Witness for C5: a price-only update of the concrete listing leaves
every other field and the attribute set untouched. -/
theorem listing_update_partial_witness :
    findListing [listingW0] 3 7 = some listingW0 ∧
    listingUpdateRaw envW [listingW0] 3 7 dataPriceOnly =
      some (.updated listingW0p, [listingW0p]) ∧
    (((dataPriceOnly.lookup "title").isNone → listingW0p.title = listingW0.title) ∧
     ((dataPriceOnly.lookup "description").isNone →
       listingW0p.description = listingW0.description) ∧
     ((dataPriceOnly.lookup "price_amount").isNone →
       listingW0p.price_amount = listingW0.price_amount) ∧
     ((dataPriceOnly.lookup "price_currency").isNone →
       listingW0p.price_currency = listingW0.price_currency) ∧
     ((dataPriceOnly.lookup "is_price_negotiable").isNone →
       listingW0p.is_price_negotiable = listingW0.is_price_negotiable) ∧
     ((dataPriceOnly.lookup "condition").isNone →
       listingW0p.condition = listingW0.condition) ∧
     ((dataPriceOnly.lookup "deal_type").isNone →
       listingW0p.deal_type = listingW0.deal_type) ∧
     ((dataPriceOnly.lookup "seller_type").isNone →
       listingW0p.seller_type = listingW0.seller_type) ∧
     ((dataPriceOnly.lookup "category").isNone →
       listingW0p.category_id = listingW0.category_id) ∧
     ((dataPriceOnly.lookup "location").isNone →
       listingW0p.location_id = listingW0.location_id) ∧
     ((dataPriceOnly.lookup "lat").isNone → listingW0p.lat = listingW0.lat) ∧
     ((dataPriceOnly.lookup "lon").isNone → listingW0p.lon = listingW0.lon) ∧
     ((dataPriceOnly.lookup "contact_phone").isNone →
       listingW0p.contact_phone = listingW0.contact_phone) ∧
     ((dataPriceOnly.lookup "contact_name").isNone →
       listingW0p.contact_name = listingW0.contact_name) ∧
     ((dataPriceOnly.lookup "contact_email").isNone →
       listingW0p.contact_email = listingW0.contact_email) ∧
     ((dataPriceOnly.lookup "attributes").isNone →
       listingW0p.attrs = listingW0.attrs) ∧
     listingW0p.id = listingW0.id ∧ listingW0p.user = listingW0.user) :=
  ⟨rfl, rfl,
    listing_update_partial envW [listingW0] 3 7 dataPriceOnly listingW0 listingW0p
      [listingW0p] rfl rfl⟩

end SailServer
